import Mathlib

/-!
Verification of the file-backed tabular editing model of `week2.1.py`
(a pandas/Streamlit spreadsheet manager).

The embedding models a pandas DataFrame cell as a `Val`: an absent value
(`Val.na`, pandas NaN/None), a number (`Val.num`, numeric values are
modelled as integers; IEEE-float formatting details are abstracted), or a
string (`Val.vstr`).  A DataFrame is a header (ordered column names) plus
a list of rows, each row holding one cell per column.  Python string
operations used by the source (`str.lower`, `str.strip`, `str(int)`,
f-string suffixing) are implemented over character lists so that their
behaviour is fully explicit.
-/

/-- A pandas cell value: absent (NaN/None), numeric, or text. -/
inductive Val where
  | na : Val
  | num : Int → Val
  | vstr : String → Val
deriving DecidableEq

/-- An in-memory table (pandas DataFrame): ordered column names plus rows,
each row holding one cell per column. -/
structure DF where
  header : List String
  rows : List (List Val)
deriving DecidableEq

/-- Well-formedness: every row has one cell per column. -/
def DF.WF (df : DF) : Prop := ∀ r ∈ df.rows, r.length = df.header.length

/-- The empty table `pd.DataFrame()`: zero columns, zero rows. -/
def emptyDF : DF := ⟨[], []⟩

/-- Python whitespace recognised by `str.strip()` (ASCII part). -/
def pyWS (c : Char) : Bool :=
  c == ' ' || c == '\t' || c == '\n' || c == '\r' || c == '\x0b' || c == '\x0c'

/-- ASCII lowering of one character, as in Python `str.lower()`. -/
def lowerChar (c : Char) : Char :=
  if 'A' ≤ c ∧ c ≤ 'Z' then Char.ofNat (c.toNat + 32) else c

/-- Python `s.lower()` (ASCII). -/
def pyLower (s : String) : String := ⟨s.data.map lowerChar⟩

/-- Drop leading Python whitespace from a character list. -/
def dropWS (l : List Char) : List Char := l.dropWhile pyWS

/-- Python `s.strip()`: remove leading and trailing whitespace. -/
def pyStrip (s : String) : String :=
  ⟨((dropWS s.data).reverse |> dropWS).reverse⟩

/-- The decimal digit character for `d` (`d ≤ 9`; larger inputs never occur). -/
def digitChar' : Nat → Char
  | 0 => '0' | 1 => '1' | 2 => '2' | 3 => '3' | 4 => '4'
  | 5 => '5' | 6 => '6' | 7 => '7' | 8 => '8' | _ => '9'

/-- Numeric value of a decimal digit character. -/
def digitVal (c : Char) : Nat := c.toNat - '0'.toNat

/-- Read a decimal digit string left to right, accumulating into `a`. -/
def charsValAux (a : Nat) (l : List Char) : Nat :=
  l.foldl (fun a c => 10 * a + digitVal c) a

/-- Fuel-bounded decimal rendering of a natural number (the fuel is an upper
bound on the number of digits; `natToDec` always supplies enough). -/
def natToDecAux : Nat → Nat → List Char
  | 0, _ => []
  | fuel + 1, n =>
    if n < 10 then [digitChar' n]
    else natToDecAux fuel (n / 10) ++ [digitChar' (n % 10)]

/-- Decimal rendering of a natural number, as in Python `str(n)`. -/
def natToDec (n : Nat) : List Char := natToDecAux (n + 1) n

/-- Python `str(n)` for an integer. -/
def intToStr (n : Int) : String :=
  match n with
  | Int.ofNat m => ⟨natToDec m⟩
  | Int.negSucc m => ⟨'-' :: natToDec (m + 1)⟩

/-- Python `str()` of one cell, as produced per cell by `df.astype(str)`
(week2.1.py line 179): numbers render in decimal, strings are unchanged,
and the missing marker renders as the literal text "nan" (pandas renders a
missing float cell as "nan" and a None cell as "None"; the model uses the
"nan" form for its single absent marker). -/
def pyStr : Val → String
  | Val.na => "nan"
  | Val.num n => intToStr n
  | Val.vstr s => s

/-- The all-text editable view `df_editable = df.astype(str)`
(week2.1.py line 179): every cell of every column is coerced to its text
representation (the spec's `to_editable`). -/
def astype_str (df : DF) : DF :=
  ⟨df.header, df.rows.map (List.map (fun v => Val.vstr (pyStr v)))⟩

/-- True for cells a pandas numeric (int64/float64) column can hold. -/
def cell_numeric : Val → Bool
  | Val.vstr _ => false
  | _ => true

/-- The cells of column number `j`, read downwards. -/
def column_cells (df : DF) (j : Nat) : List Val :=
  df.rows.map (fun r => r.getD j Val.na)

/-- Whether a loaded column carries a numeric dtype: pandas infers a numeric
dtype exactly when the column is nonempty and no cell is a string (an
all-absent column loads as float64, a column of a zero-row file as object). -/
def col_is_num (cells : List Val) : Bool :=
  (!cells.isEmpty) && cells.all cell_numeric

/-- The per-column record `original_dtypes = df.dtypes.to_dict()` filtered
through `pd.api.types.is_numeric_dtype` (week2.1.py lines 178 and 192),
kept positionally (column names are unique in a table). -/
def numeric_dtypes (df : DF) : List Bool :=
  (List.range df.header.length).map (fun j => col_is_num (column_cells df j))

/-- True on decimal digit characters. -/
def isDigitCh (c : Char) : Bool := '0' ≤ c && c ≤ '9'

/-- Parse a decimal integer literal the way `pd.to_numeric` accepts a cell:
an optional minus sign followed by digits; anything else fails
(float/scientific formats are abstracted away by the integer value model). -/
def parseNum (s : String) : Option Int :=
  match s.data with
  | '-' :: rest =>
    if (!rest.isEmpty) && rest.all isDigitCh then
      some (-(charsValAux 0 rest : Int))
    else none
  | l =>
    if (!l.isEmpty) && l.all isDigitCh then
      some ((charsValAux 0 l : Int))
    else none

/-- One cell of `pd.to_numeric(col, errors='coerce')` (week2.1.py line 193):
text that parses becomes the number, text that fails to parse becomes the
absent value (coercion, not failure); numeric and absent cells pass through. -/
def toNum : Val → Val
  | Val.vstr s =>
    match parseNum s with
    | some n => Val.num n
    | none => Val.na
  | v => v

/-- The body of `restore_dtypes(original_dtypes, edited_df)`
(week2.1.py lines 190-194): every column originally recorded as numeric is
passed through `pd.to_numeric(..., errors='coerce')`; all other columns are
kept exactly as edited.  The dtype record is the positional mask produced
by `numeric_dtypes`. -/
def restore_dtypes (original_dtypes : List Bool) (edited_df : DF) : DF :=
  ⟨edited_df.header,
   edited_df.rows.map (fun r =>
     List.zipWith (fun b v => if b then toNum v else v) original_dtypes r)⟩

/-- The f-string `f"{orig}_{k}"` used both for the collision suffix
(week2.1.py line 147) and, with `orig = "Column"`, for the placeholder
name `f"Column_{len(df.columns)+1}"` (line 140). -/
def suffixed (orig : String) (k : Nat) : String :=
  ⟨orig.data ++ '_' :: natToDec k⟩

/-- The reserved-name check of the Add Columns handler (week2.1.py
lines 139-140): a requested name whose `strip().lower()` is "name" is
replaced by the placeholder built from the current column count `w`. -/
def sanitize_name (w : Nat) (s : String) : String :=
  if pyLower (pyStrip s) = "name" then suffixed "Column" (w + 1) else s

/-- The collision loop `while name in df.columns: name = f"{orig}_{k}"; k += 1`
(week2.1.py lines 145-148), fuel-bounded; `freshName` supplies fuel
`cols.length + 1`, which always suffices. -/
def freshAux (cols : List String) (orig : String) (k : Nat) : Nat → String
  | 0 => suffixed orig k
  | fuel + 1 =>
    if suffixed orig k ∈ cols then freshAux cols orig (k + 1) fuel
    else suffixed orig k

/-- Resolve one requested column name against the current columns, exactly as
the source loop does: try the name itself, then `name_2`, `name_3`, … until
the candidate is not a current column. -/
def freshName (cols : List String) (orig : String) : String :=
  if orig ∈ cols then freshAux cols orig 2 (cols.length + 1) else orig

/-- The `for name in col_names` loop of the Add Columns handler
(week2.1.py lines 143-149): each requested name is freshened against the
columns present at that moment (existing columns plus names added earlier
in the same batch) and then appended. -/
def add_names (cols : List String) : List String → List String
  | [] => cols
  | n :: rest => add_names (cols ++ [freshName cols n]) rest

/-- The Add Columns handler (week2.1.py lines 136-152): requested names are
first passed through the reserved-name replacement (with the pre-add column
count), then added one by one with collision suffixing; each new column is
filled with the absent value (`df[name] = None`). -/
def add_columns (df : DF) (names : List String) : DF :=
  ⟨add_names df.header (names.map (sanitize_name df.header.length)),
   df.rows.map (fun r => r ++ List.replicate names.length Val.na)⟩

/-- The Add Rows handler (week2.1.py lines 169-170): append `n` blank rows
(`{c: None for c in df.columns}`), every cell the absent marker, below the
existing rows. -/
def add_rows (df : DF) (n : Nat) : DF :=
  ⟨df.header,
   df.rows ++ List.replicate n (List.replicate df.header.length Val.na)⟩

/-- Failure condition of a row deletion addressing a nonexistent row
(pandas `drop` raises `KeyError`; the spec calls this InvalidIndex). -/
inductive RowErr where
  | invalidIndex : RowErr
deriving DecidableEq

/-- Keep the rows whose position (counted from `i`) is not listed in `idxs`:
the effect of `drop(index=idxs)` followed by `reset_index(drop=True)` on a
range-indexed frame. -/
def removeRows (idxs : List Nat) : Nat → List (List Val) → List (List Val)
  | _, [] => []
  | i, r :: rs =>
    if i ∈ idxs then removeRows idxs (i + 1) rs
    else r :: removeRows idxs (i + 1) rs

/-- The row-deletion core of the Delete Selected Rows handler
(week2.1.py line 216): `edited_df.drop(index=rows_to_delete).reset_index(drop=True)`.
Positions are zero-based into the current row order; a position with no row
fails with the InvalidIndex condition (pandas `KeyError`), and the survivors
are re-indexed contiguously from zero (rows are positional in this model). -/
def delete_rows (df : DF) (idxs : List Nat) : Except RowErr DF :=
  if idxs.all (fun i => decide (i < df.rows.length)) then
    Except.ok ⟨df.header, removeRows idxs 0 df.rows⟩
  else Except.error RowErr.invalidIndex

/-- The table passed to `safe_write_excel` by the Save Table handler
(week2.1.py lines 202-204): the edited view reconciled by `restore_dtypes`. -/
def save_table_write (original_dtypes : List Bool) (edited_df : DF) : DF :=
  restore_dtypes original_dtypes edited_df

/-- The table passed to `safe_write_excel` by the Delete Selected Rows handler
(week2.1.py lines 215-217): the edited view with the selected rows dropped,
written as is. -/
def delete_rows_write (edited_df : DF) (rows_to_delete : List Nat) :
    Except RowErr DF :=
  delete_rows edited_df rows_to_delete

/-- The state of the spreadsheet file at a path, as `safe_read_excel`
distinguishes it: absent, present but zero-length, present but unreadable
(any `pd.read_excel` exception), or readable with content `df`. -/
inductive FileState where
  | absent : FileState
  | emptyFile : FileState
  | corrupt : FileState
  | good : DF → FileState
deriving DecidableEq

/-- What a read returns to the page: a table plus whether a non-fatal
warning was surfaced (`st.warning`). -/
structure ReadOutcome where
  df : DF
  warned : Bool
deriving DecidableEq

/-- `safe_read_excel` (week2.1.py lines 65-72): a missing or zero-length
file yields the empty table silently; any other read failure yields the
empty table plus a warning; a readable file yields its content.  The
function is total: no case raises. -/
def safe_read_excel : FileState → ReadOutcome
  | FileState.absent => ⟨emptyDF, false⟩
  | FileState.emptyFile => ⟨emptyDF, false⟩
  | FileState.corrupt => ⟨emptyDF, true⟩
  | FileState.good df => ⟨df, false⟩

/-- Outcome reported by `create_excel`. -/
inductive CreateResult where
  | created : CreateResult
  | alreadyExists : CreateResult
deriving DecidableEq

/-- `create_excel` (week2.1.py lines 81-86): if the path exists (in any
state) the file is left untouched and the user is notified (`st.info`);
otherwise the empty table is written to the path.  The storage is assumed
to accept the write (write failures are a separate `safe_write_excel`
concern). -/
def create_excel : FileState → FileState × CreateResult
  | FileState.absent => (FileState.good emptyDF, CreateResult.created)
  | s => (s, CreateResult.alreadyExists)

/-! ### Decimal rendering lemmas -/

theorem charsValAux_concat (a : Nat) (l : List Char) (c : Char) :
    charsValAux a (l ++ [c]) = 10 * charsValAux a l + digitVal c := by
  simp [charsValAux, List.foldl_append]

theorem digitVal_digitChar' (d : Nat) (h : d < 10) :
    digitVal (digitChar' d) = d := by
  interval_cases d <;> decide

theorem natToDecAux_val (fuel : Nat) :
    ∀ n, n < fuel → charsValAux 0 (natToDecAux fuel n) = n := by
  induction fuel with
  | zero => intro n h; omega
  | succ fuel ih =>
    intro n h
    by_cases h10 : n < 10
    · simp [natToDecAux, h10, charsValAux, List.foldl, digitVal_digitChar' n h10]
    · have hdiv : n / 10 < n := Nat.div_lt_self (by omega) (by omega)
      have hmod : n % 10 < 10 := Nat.mod_lt _ (by omega)
      have hdm := Nat.div_add_mod n 10
      simp only [natToDecAux, h10, if_false, charsValAux_concat,
        ih (n / 10) (by omega), digitVal_digitChar' _ hmod]
      omega

theorem natToDec_val (n : Nat) : charsValAux 0 (natToDec n) = n :=
  natToDecAux_val (n + 1) n (by omega)

theorem natToDec_inj {m n : Nat} (h : natToDec m = natToDec n) : m = n := by
  have : charsValAux 0 (natToDec m) = charsValAux 0 (natToDec n) := by rw [h]
  rwa [natToDec_val, natToDec_val] at this

theorem natToDec_eq_ite (n : Nat) :
    natToDec n =
      if n < 10 then [digitChar' n]
      else natToDecAux n (n / 10) ++ [digitChar' (n % 10)] := rfl

theorem natToDec_ne_nil (n : Nat) : natToDec n ≠ [] := by
  rw [natToDec_eq_ite]
  by_cases h : n < 10 <;> simp [h]

theorem natToDec_concat (n : Nat) :
    ∃ l d, d < 10 ∧ natToDec n = l ++ [digitChar' d] := by
  rw [natToDec_eq_ite]
  by_cases h : n < 10
  · exact ⟨[], n, h, by simp [h]⟩
  · exact ⟨natToDecAux n (n / 10), n % 10, Nat.mod_lt _ (by omega), by simp [h]⟩

theorem suffixed_inj {o : String} {k₁ k₂ : Nat}
    (h : suffixed o k₁ = suffixed o k₂) : k₁ = k₂ := by
  have hd : o.data ++ '_' :: natToDec k₁ = o.data ++ '_' :: natToDec k₂ :=
    congrArg String.data h
  have := List.append_cancel_left hd
  exact natToDec_inj (by injection this)

/-! ### Python string-function lemmas -/

theorem pyWS_lowerChar_self (c : Char) (h : pyWS c = true) : lowerChar c = c := by
  simp only [pyWS, Bool.or_eq_true, beq_iff_eq] at h
  rcases h with ((((h | h) | h) | h) | h) | h <;> subst h <;> decide

theorem pyWS_false_of_lowerChar_eq {c t : Char} (h : lowerChar c = t)
    (ht : pyWS t = false) : pyWS c = false := by
  by_cases hw : pyWS c = true
  · rw [pyWS_lowerChar_self c hw] at h; subst h; exact ht
  · simpa using hw

theorem pyStrip_eq_of_pyLower_name (s : String) (h : pyLower s = "name") :
    pyStrip s = s := by
  obtain ⟨sd⟩ := s
  have hd : sd.map lowerChar = "name".data := congrArg String.data h
  obtain ⟨c1, c2, c3, c4, hs⟩ : ∃ c1 c2 c3 c4, sd = [c1, c2, c3, c4] := by
    rcases sd with _ | ⟨a, _ | ⟨b, _ | ⟨c, _ | ⟨d, _ | ⟨e5, t⟩⟩⟩⟩⟩ <;> simp at hd
    exact ⟨a, b, c, d, rfl⟩
  subst hs
  simp only [List.map_cons, List.map_nil] at hd
  have hd' : lowerChar c1 = 'n' ∧ lowerChar c2 = 'a' ∧ lowerChar c3 = 'm' ∧
      lowerChar c4 = 'e' := by
    simpa using hd
  have h1 : pyWS c1 = false := pyWS_false_of_lowerChar_eq hd'.1 (by decide)
  have h4 : pyWS c4 = false := pyWS_false_of_lowerChar_eq hd'.2.2.2 (by decide)
  show (⟨((dropWS [c1, c2, c3, c4]).reverse |> dropWS).reverse⟩ : String) = _
  simp [dropWS, List.dropWhile_cons, h1, h4]

theorem pyLower_ne_name_of_strip {s : String}
    (h : pyLower (pyStrip s) ≠ "name") : pyLower s ≠ "name" := by
  intro he
  exact h (by rw [pyStrip_eq_of_pyLower_name s he]; exact he)

theorem pyLower_suffixed_ne_name (o : String) (k : Nat) :
    pyLower (suffixed o k) ≠ "name" := by
  intro h
  have hd : (o.data ++ '_' :: natToDec k).map lowerChar = "name".data :=
    congrArg String.data h
  obtain ⟨l, d, hd10, hndk⟩ := natToDec_concat k
  rw [hndk] at hd
  have hre : o.data ++ '_' :: (l ++ [digitChar' d]) =
      (o.data ++ '_' :: l) ++ [digitChar' d] := by simp
  rw [hre] at hd
  simp only [List.map_append, List.map_cons, List.map_nil] at hd
  have hl := congrArg List.getLast? hd
  rw [List.getLast?_concat] at hl
  have hlast : ("name".data : List Char).getLast? = some 'e' := rfl
  rw [hlast] at hl
  have he : lowerChar (digitChar' d) = 'e' := Option.some.inj hl
  interval_cases d <;> exact absurd he (by decide)

/-! ### Collision-resolution lemmas -/

theorem exists_fresh_suffix (cols : List String) (o : String) :
    ∃ j, 2 ≤ j ∧ j < 2 + (cols.length + 1) ∧ suffixed o j ∉ cols := by
  by_contra hc
  push_neg at hc
  have hinj : Set.InjOn (fun i => suffixed o (i + 2))
      (Finset.range (cols.length + 1)) := by
    intro a _ b _ hab
    have := suffixed_inj hab
    omega
  have hmaps : ∀ i ∈ Finset.range (cols.length + 1),
      suffixed o (i + 2) ∈ cols.toFinset := by
    intro i hi
    rw [List.mem_toFinset]
    rw [Finset.mem_range] at hi
    exact hc (i + 2) (by omega) (by omega)
  have hcard := Finset.card_le_card_of_injOn _ hmaps hinj
  rw [Finset.card_range] at hcard
  have hle := List.toFinset_card_le cols
  omega

theorem freshAux_not_mem (cols : List String) (o : String) :
    ∀ fuel k, (∃ j, k ≤ j ∧ j < k + fuel ∧ suffixed o j ∉ cols) →
      freshAux cols o k fuel ∉ cols := by
  intro fuel
  induction fuel with
  | zero =>
    intro k h
    obtain ⟨j, h1, h2, _⟩ := h
    omega
  | succ fuel ih =>
    intro k h
    obtain ⟨j, h1, h2, h3⟩ := h
    by_cases hk : suffixed o k ∈ cols
    · simp only [freshAux, hk, if_true]
      apply ih (k + 1)
      refine ⟨j, ?_, by omega, h3⟩
      rcases Nat.eq_or_lt_of_le h1 with he | hl
      · exact absurd (he ▸ hk) h3
      · omega
    · simp only [freshAux]
      rw [if_neg hk]
      exact hk

theorem freshName_not_mem (cols : List String) (o : String) :
    freshName cols o ∉ cols := by
  unfold freshName
  by_cases h : o ∈ cols
  · rw [if_pos h]
    exact freshAux_not_mem cols o (cols.length + 1) 2 (exists_fresh_suffix cols o)
  · rw [if_neg h]
    exact h

theorem freshAux_shape (cols : List String) (o : String) :
    ∀ fuel k, ∃ m, freshAux cols o k fuel = suffixed o m := by
  intro fuel
  induction fuel with
  | zero => intro k; exact ⟨k, rfl⟩
  | succ fuel ih =>
    intro k
    by_cases h : suffixed o k ∈ cols
    · simp only [freshAux, h, if_true]
      exact ih (k + 1)
    · simp only [freshAux, h, if_false]
      exact ⟨k, rfl⟩

theorem freshName_shape (cols : List String) (o : String) :
    freshName cols o = o ∨ ∃ m, freshName cols o = suffixed o m := by
  unfold freshName
  by_cases h : o ∈ cols
  · rw [if_pos h]
    exact Or.inr (freshAux_shape cols o (cols.length + 1) 2)
  · rw [if_neg h]
    exact Or.inl rfl

theorem add_names_nodup (l : List String) :
    ∀ cols : List String, cols.Nodup → (add_names cols l).Nodup := by
  induction l with
  | nil => intro cols h; exact h
  | cons n rest ih =>
    intro cols h
    apply ih
    rw [List.nodup_append]
    refine ⟨h, List.nodup_singleton _, fun a ha hb => ?_⟩
    rw [List.mem_singleton] at hb
    subst hb
    exact freshName_not_mem cols n ha

theorem add_names_mem (l : List String) :
    ∀ cols, ∀ c ∈ add_names cols l,
      c ∈ cols ∨ ∃ o ∈ l, c = o ∨ ∃ m, c = suffixed o m := by
  induction l with
  | nil => intro cols c hc; exact Or.inl hc
  | cons n rest ih =>
    intro cols c hc
    rcases ih (cols ++ [freshName cols n]) c hc with h | ⟨o, ho, h⟩
    · rw [List.mem_append, List.mem_singleton] at h
      rcases h with h | h
      · exact Or.inl h
      · subst h
        rcases freshName_shape cols n with h | ⟨m, h⟩
        · exact Or.inr ⟨n, List.mem_cons_self n rest, Or.inl h⟩
        · exact Or.inr ⟨n, List.mem_cons_self n rest, Or.inr ⟨m, h⟩⟩
    · exact Or.inr ⟨o, List.mem_cons_of_mem n ho, h⟩

theorem add_columns_no_name (df : DF) (names : List String)
    (h : ∀ c ∈ df.header, pyLower c ≠ "name") :
    ∀ c ∈ (add_columns df names).header, pyLower c ≠ "name" := by
  intro c hc
  rcases add_names_mem _ _ c hc with h1 | ⟨o, ho, h1⟩
  · exact h c h1
  · rcases h1 with rfl | ⟨m, rfl⟩
    · rw [List.mem_map] at ho
      obtain ⟨s, _, rfl⟩ := ho
      unfold sanitize_name
      by_cases hn : pyLower (pyStrip s) = "name"
      · rw [if_pos hn]
        exact pyLower_suffixed_ne_name _ _
      · rw [if_neg hn]
        exact pyLower_ne_name_of_strip hn
    · exact pyLower_suffixed_ne_name _ _

/-- A sample table for the C3 witness. -/
def dfC3 : DF := ⟨["X"], [[Val.num 1]]⟩

/-- C3: for every table (with the table invariant of unique column names and
no reserved "name" column, as guaranteed by the post-load filter) and every
list of requested names, the Add Columns handler produces a table with
pairwise-distinct column names and no column case-insensitively named
"name"; a requested name whose stripped lowering is "name" is replaced by
the placeholder derived from the current column count; and adding
"A", "A", "Name" to an empty table yields columns ["A", "A_2", "Column_1"]. -/
theorem add_columns_spec (df : DF) (names : List String)
    (hnd : df.header.Nodup) (hnm : ∀ c ∈ df.header, pyLower c ≠ "name") :
    (add_columns df names).header.Nodup
    ∧ (∀ c ∈ (add_columns df names).header, pyLower c ≠ "name")
    ∧ (∀ s ∈ names, pyLower (pyStrip s) = "name" →
        sanitize_name df.header.length s = suffixed "Column" (df.header.length + 1))
    ∧ add_columns ⟨[], []⟩ ["A", "A", "Name"] = ⟨["A", "A_2", "Column_1"], []⟩ := by
  refine ⟨add_names_nodup _ _ hnd, add_columns_no_name df names hnm, ?_, by decide⟩
  intro s _ hs
  unfold sanitize_name
  rw [if_pos hs]

/-- Witness for C3 at a concrete table and batch. -/
theorem add_columns_spec_witness :
    (dfC3.header.Nodup ∧ (∀ c ∈ dfC3.header, pyLower c ≠ "name"))
    ∧ ((add_columns dfC3 ["B"]).header.Nodup
       ∧ (∀ c ∈ (add_columns dfC3 ["B"]).header, pyLower c ≠ "name")
       ∧ (∀ s ∈ ["B"], pyLower (pyStrip s) = "name" →
           sanitize_name dfC3.header.length s =
             suffixed "Column" (dfC3.header.length + 1))
       ∧ add_columns ⟨[], []⟩ ["A", "A", "Name"] = ⟨["A", "A_2", "Column_1"], []⟩) :=
  ⟨by decide, add_columns_spec dfC3 ["B"] (by decide) (by decide)⟩

/-- A sample table for the C10 witness. -/
def dfC10 : DF := ⟨["A"], [[Val.num 1]]⟩

/-- C10: collision resolution compares names case-sensitively: on a table
with a column "A", a requested name "a" is appended unchanged, with no
numeric suffix, so the result holds two columns equal up to case. -/
theorem add_columns_case_sensitive (df : DF)
    (hA : "A" ∈ df.header) (ha : "a" ∉ df.header) :
    (add_columns df ["a"]).header = df.header ++ ["a"]
    ∧ "A" ∈ (add_columns df ["a"]).header
    ∧ "a" ∈ (add_columns df ["a"]).header
    ∧ pyLower "A" = pyLower "a" ∧ "A" ≠ "a" := by
  have hsan : sanitize_name df.header.length "a" = "a" := by
    unfold sanitize_name
    rw [if_neg (by decide)]
  have h2 : freshName df.header "a" = "a" := by
    unfold freshName
    rw [if_neg ha]
  have hh : (add_columns df ["a"]).header = df.header ++ ["a"] := by
    show add_names df.header (["a"].map (sanitize_name df.header.length)) = _
    simp only [List.map_cons, List.map_nil, hsan]
    show add_names (df.header ++ [freshName df.header "a"]) [] = _
    rw [h2]
    rfl
  refine ⟨hh, ?_, ?_, by decide, by decide⟩
  · rw [hh]
    exact List.mem_append_left _ hA
  · rw [hh]
    exact List.mem_append_right _ (List.mem_singleton_self _)

/-- Witness for C10 at a concrete table. -/
theorem add_columns_case_sensitive_witness :
    ("A" ∈ dfC10.header ∧ "a" ∉ dfC10.header)
    ∧ ((add_columns dfC10 ["a"]).header = dfC10.header ++ ["a"]
       ∧ "A" ∈ (add_columns dfC10 ["a"]).header
       ∧ "a" ∈ (add_columns dfC10 ["a"]).header
       ∧ pyLower "A" = pyLower "a" ∧ "A" ≠ "a") :=
  ⟨by decide, add_columns_case_sensitive dfC10 (by decide) (by decide)⟩

/-! ### Column-extraction lemmas -/

theorem list_map_congr_mem {α β : Type} {f g : α → β} (l : List α)
    (h : ∀ a ∈ l, f a = g a) : l.map f = l.map g := by
  induction l with
  | nil => rfl
  | cons a l ih =>
    simp only [List.map_cons]
    rw [h a (List.mem_cons_self a l), ih (fun x hx => h x (List.mem_cons_of_mem a hx))]

theorem getD_zipWith_boolval (bs : List Bool) :
    ∀ (r : List Val) (j : Nat), j < bs.length → j < r.length →
      (List.zipWith (fun b v => if b then toNum v else v) bs r).getD j Val.na =
        if bs.getD j false then toNum (r.getD j Val.na) else r.getD j Val.na := by
  induction bs with
  | nil => intro r j h1 _; simp at h1
  | cons b bs ih =>
    intro r j h1 h2
    cases r with
    | nil => simp at h2
    | cons v rs =>
      cases j with
      | zero => simp [List.zipWith_cons_cons]
      | succ j =>
        simp only [List.zipWith_cons_cons, List.getD_cons_succ]
        exact ih rs j (by simpa using h1) (by simpa using h2)

theorem getD_map_val (g : Val → Val) :
    ∀ (r : List Val) (j : Nat), j < r.length →
      (r.map g).getD j Val.na = g (r.getD j Val.na) := by
  intro r
  induction r with
  | nil => intro j h; simp at h
  | cons v rs ih =>
    intro j h
    cases j with
    | zero => simp
    | succ j =>
      simp only [List.map_cons, List.getD_cons_succ]
      exact ih j (by simpa using h)

theorem column_cells_restore (mask : List Bool) (df : DF) (hwf : df.WF)
    (hm : mask.length = df.header.length) (j : Nat) (hj : j < df.header.length) :
    column_cells (restore_dtypes mask df) j =
      if mask.getD j false then (column_cells df j).map toNum
      else column_cells df j := by
  unfold column_cells restore_dtypes
  simp only [List.map_map]
  by_cases hb : mask.getD j false = true
  · simp only [hb, if_true, List.map_map]
    apply list_map_congr_mem
    intro r hr
    simp only [Function.comp]
    rw [getD_zipWith_boolval mask r j (by omega) (by rw [hwf r hr]; omega), hb,
      if_pos rfl]
  · rw [Bool.not_eq_true] at hb
    simp only [hb, Bool.false_eq_true, if_false]
    apply list_map_congr_mem
    intro r hr
    simp only [Function.comp]
    rw [getD_zipWith_boolval mask r j (by omega) (by rw [hwf r hr]; omega), hb]
    simp

theorem astype_WF (df : DF) (h : df.WF) : (astype_str df).WF := by
  intro r hr
  rcases List.mem_map.mp hr with ⟨r0, hr0, rfl⟩
  show (r0.map _).length = df.header.length
  rw [List.length_map]
  exact h r0 hr0

theorem column_cells_astype (df : DF) (hwf : df.WF) (j : Nat)
    (hj : j < df.header.length) :
    column_cells (astype_str df) j =
      (column_cells df j).map (fun v => Val.vstr (pyStr v)) := by
  unfold column_cells astype_str
  simp only [List.map_map]
  apply list_map_congr_mem
  intro r hr
  simp only [Function.comp]
  exact getD_map_val _ r j (by rw [hwf r hr]; omega)

theorem numeric_dtypes_length (df : DF) :
    (numeric_dtypes df).length = df.header.length := by
  simp [numeric_dtypes]

/-! ### Reconciliation claims -/

/-- A sample editable view for the C5 witness. -/
def dfC5 : DF := ⟨["A"], [[Val.vstr "7"], [Val.vstr "x"]]⟩

/-- C5: on a column recorded as numeric, `restore_dtypes` sends every text
cell through the integer parse, leaving only numbers and absent values (a
cell whose text fails to parse becomes absent, never the literal string,
and the operation is a total function — it cannot raise); a column not
recorded as numeric is kept exactly as edited. -/
theorem restore_dtypes_spec (mask : List Bool) (df : DF) (hwf : df.WF)
    (hm : mask.length = df.header.length) (j : Nat) (hj : j < df.header.length) :
    (mask.getD j false = true →
      column_cells (restore_dtypes mask df) j = (column_cells df j).map toNum
      ∧ (∀ v ∈ column_cells (restore_dtypes mask df) j,
          v = Val.na ∨ ∃ n, v = Val.num n))
    ∧ (mask.getD j false = false →
        column_cells (restore_dtypes mask df) j = column_cells df j)
    ∧ (∀ s, parseNum s = none → toNum (Val.vstr s) = Val.na) := by
  have hcol := column_cells_restore mask df hwf hm j hj
  refine ⟨fun hb => ?_, fun hb => ?_, fun s hs => ?_⟩
  · rw [hb, if_pos rfl] at hcol
    refine ⟨hcol, ?_⟩
    rw [hcol]
    intro v hv
    rw [List.mem_map] at hv
    obtain ⟨w, _, rfl⟩ := hv
    cases w with
    | na => exact Or.inl rfl
    | num n => exact Or.inr ⟨n, rfl⟩
    | vstr s =>
      rcases h : parseNum s with _ | n
      · exact Or.inl (by simp [toNum, h])
      · exact Or.inr ⟨n, by simp [toNum, h]⟩
  · rw [hb] at hcol
    simpa using hcol
  · simp [toNum, hs]

/-- Witness for C5 at a concrete numeric mask and edited view: the cell "7"
parses, the cell "x" coerces to the absent value. -/
theorem restore_dtypes_spec_witness :
    (dfC5.WF ∧ ([true] : List Bool).length = dfC5.header.length
      ∧ 0 < dfC5.header.length)
    ∧ (([true].getD 0 false = true →
        column_cells (restore_dtypes [true] dfC5) 0 = (column_cells dfC5 0).map toNum
        ∧ (∀ v ∈ column_cells (restore_dtypes [true] dfC5) 0,
            v = Val.na ∨ ∃ n, v = Val.num n))
      ∧ ([true].getD 0 false = false →
          column_cells (restore_dtypes [true] dfC5) 0 = column_cells dfC5 0)
      ∧ (∀ s, parseNum s = none → toNum (Val.vstr s) = Val.na)) :=
  ⟨⟨by show ∀ r ∈ dfC5.rows, r.length = dfC5.header.length; decide, by decide,
      by decide⟩,
   restore_dtypes_spec [true] dfC5
     (by show ∀ r ∈ dfC5.rows, r.length = dfC5.header.length; decide)
     (by decide) 0 (by decide)⟩

/-- The table used in the C4 counterexample: one non-numeric column holding
an absent cell and a text cell. -/
def dfC4 : DF := ⟨["A"], [[Val.na], [Val.vstr "x"]]⟩

/-- C4 counterexample: `dfC4`'s only column is not numeric, yet coercing to
the editable view and restoring does not return the original table — the
absent cell comes back as the literal text "nan". -/
theorem roundtrip_counterexample :
    numeric_dtypes dfC4 = [false]
    ∧ restore_dtypes (numeric_dtypes dfC4) (astype_str dfC4) ≠ dfC4
    ∧ column_cells (restore_dtypes (numeric_dtypes dfC4) (astype_str dfC4)) 0 =
        [Val.vstr "nan", Val.vstr "x"]
    ∧ column_cells dfC4 0 = [Val.na, Val.vstr "x"] := by
  refine ⟨by decide, by decide, by decide, by decide⟩

/-- C4 amended: the `to_editable` / `restore_types` round trip with no edits
is the identity on every non-numeric column all of whose cells are text
values (a non-numeric column containing an absent — or numeric — cell is
not restored: its cells stay in their text form). -/
theorem roundtrip_text_columns (df : DF) (hwf : df.WF) (j : Nat)
    (hj : j < df.header.length)
    (hnn : (numeric_dtypes df).getD j false = false)
    (htext : ∀ v ∈ column_cells df j, cell_numeric v = false) :
    column_cells (restore_dtypes (numeric_dtypes df) (astype_str df)) j =
      column_cells df j := by
  have hwf' : (astype_str df).WF := astype_WF df hwf
  have hm : (numeric_dtypes df).length = (astype_str df).header.length :=
    numeric_dtypes_length df
  have hcol := column_cells_restore (numeric_dtypes df) (astype_str df) hwf' hm j hj
  rw [hnn] at hcol
  simp only [Bool.false_eq_true, if_false] at hcol
  rw [hcol, column_cells_astype df hwf j hj]
  conv_rhs => rw [← List.map_id (column_cells df j)]
  apply list_map_congr_mem
  intro v hv
  have hvn := htext v hv
  cases v with
  | vstr s => simp [pyStr]
  | na => simp [cell_numeric] at hvn
  | num n => simp [cell_numeric] at hvn

/-- A one-cell text table for the C4 witness. -/
def dfC4w : DF := ⟨["A"], [[Val.vstr "x"]]⟩

/-- Witness for the amended C4 at a concrete all-text column. -/
theorem roundtrip_text_columns_witness :
    (dfC4w.WF ∧ 0 < dfC4w.header.length
      ∧ (numeric_dtypes dfC4w).getD 0 false = false
      ∧ (∀ v ∈ column_cells dfC4w 0, cell_numeric v = false))
    ∧ column_cells (restore_dtypes (numeric_dtypes dfC4w) (astype_str dfC4w)) 0 =
        column_cells dfC4w 0 :=
  ⟨⟨by show ∀ r ∈ dfC4w.rows, r.length = dfC4w.header.length; decide, by decide,
      by decide, by decide⟩,
   roundtrip_text_columns dfC4w
     (by show ∀ r ∈ dfC4w.rows, r.length = dfC4w.header.length; decide)
     0 (by decide) (by decide) (by decide)⟩

/-- C2 counterexample: the editable view of a table with one absent cell
carries the literal text "nan" in that cell — not an empty-text marker
distinct from "nan". -/
theorem to_editable_counterexample :
    astype_str ⟨["A"], [[Val.na]]⟩ = ⟨["A"], [[Val.vstr "nan"]]⟩
    ∧ column_cells (astype_str ⟨["A"], [[Val.na]]⟩) 0 = [Val.vstr "nan"] := by
  refine ⟨by decide, by decide⟩

/-- C2 amended: the editable view coerces every cell of every column to its
text representation, and an absent cell becomes the (non-empty) literal text
"nan" — the Python string form of the missing marker — rather than an
empty-text marker. -/
theorem to_editable_spec (df : DF) (hwf : df.WF) (j : Nat)
    (hj : j < df.header.length) :
    column_cells (astype_str df) j =
      (column_cells df j).map (fun v => Val.vstr (pyStr v))
    ∧ pyStr Val.na = "nan" ∧ pyStr Val.na ≠ "" :=
  ⟨column_cells_astype df hwf j hj, rfl, by decide⟩

/-- A one-column table for the C2 witness. -/
def dfC2 : DF := ⟨["A"], [[Val.na], [Val.num 3]]⟩

/-- Witness for the amended C2 at a concrete table. -/
theorem to_editable_spec_witness :
    (dfC2.WF ∧ 0 < dfC2.header.length)
    ∧ (column_cells (astype_str dfC2) 0 =
        (column_cells dfC2 0).map (fun v => Val.vstr (pyStr v))
       ∧ pyStr Val.na = "nan" ∧ pyStr Val.na ≠ "") :=
  ⟨⟨by show ∀ r ∈ dfC2.rows, r.length = dfC2.header.length; decide, by decide⟩,
   to_editable_spec dfC2
     (by show ∀ r ∈ dfC2.rows, r.length = dfC2.header.length; decide)
     0 (by decide)⟩

/-! ### Write-path claims -/

theorem toNum_idem (v : Val) : toNum (toNum v) = toNum v := by
  cases v with
  | na => rfl
  | num n => rfl
  | vstr s => rcases h : parseNum s with _ | n <;> simp [toNum, h]

theorem zip_restore_idem (mask : List Bool) :
    ∀ r : List Val,
      List.zipWith (fun b v => if b then toNum v else v) mask
        (List.zipWith (fun b v => if b then toNum v else v) mask r) =
      List.zipWith (fun b v => if b then toNum v else v) mask r := by
  induction mask with
  | nil => intro r; simp
  | cons b bs ih =>
    intro r
    cases r with
    | nil => simp
    | cons v rs =>
      simp only [List.zipWith_cons_cons]
      rw [ih rs]
      cases b <;> simp [toNum_idem]

/-- C1 counterexample: starting from a numeric column (recorded mask
`[true]`), the all-text editable view produced by `astype(str)` is handed to
the Delete Selected Rows handler, which passes the surviving all-text rows
to the writer as they are: the written table is not reconciled — applying
`restore_dtypes` to it would still change it. -/
theorem delete_rows_unreconciled_counterexample :
    numeric_dtypes ⟨["A"], [[Val.num 1], [Val.num 2]]⟩ = [true]
    ∧ astype_str ⟨["A"], [[Val.num 1], [Val.num 2]]⟩ =
        ⟨["A"], [[Val.vstr "1"], [Val.vstr "2"]]⟩
    ∧ delete_rows_write ⟨["A"], [[Val.vstr "1"], [Val.vstr "2"]]⟩ [0] =
        Except.ok ⟨["A"], [[Val.vstr "2"]]⟩
    ∧ restore_dtypes [true] ⟨["A"], [[Val.vstr "2"]]⟩ = ⟨["A"], [[Val.num 2]]⟩
    ∧ (⟨["A"], [[Val.vstr "2"]]⟩ : DF) ≠ ⟨["A"], [[Val.num 2]]⟩ := by
  refine ⟨by decide, by decide, by rfl, by decide, by decide⟩

/-- C1 amended: only the explicit Save Table handler reconciles the edited
view before writing — the table it hands to the writer is `restore_dtypes`
of the edited view, and is a fixpoint of reconciliation (reconciling it
again changes nothing); the Delete Selected Rows handler writes the edited
all-text view directly (see the counterexample). -/
theorem save_write_reconciled (mask : List Bool) (edited : DF) :
    save_table_write mask edited = restore_dtypes mask edited
    ∧ restore_dtypes mask (save_table_write mask edited) =
        save_table_write mask edited := by
  refine ⟨rfl, ?_⟩
  show restore_dtypes mask (restore_dtypes mask edited) = restore_dtypes mask edited
  unfold restore_dtypes
  simp only [List.map_map]
  refine congrArg (DF.mk edited.header) ?_
  apply list_map_congr_mem
  intro r _
  simp only [Function.comp]
  exact zip_restore_idem mask r

/-! ### Row-deletion lemmas -/

theorem removeRows_length_aux (idxs : List Nat) :
    ∀ (rs : List (List Val)) (i : Nat),
      (removeRows idxs i rs).length
        + ((List.range' i rs.length).filter (fun j => decide (j ∈ idxs))).length
        = rs.length := by
  intro rs
  induction rs with
  | nil => intro i; simp [removeRows]
  | cons r rest ih =>
    intro i
    rw [List.length_cons, List.range'_succ]
    by_cases h : i ∈ idxs
    · rw [show removeRows idxs i (r :: rest) = removeRows idxs (i + 1) rest from by
        simp only [removeRows]; rw [if_pos h]]
      rw [List.filter_cons, if_pos (by simpa using h)]
      have := ih (i + 1)
      simp only [List.length_cons]
      omega
    · rw [show removeRows idxs i (r :: rest) = r :: removeRows idxs (i + 1) rest from by
        simp only [removeRows]; rw [if_neg h]]
      rw [List.filter_cons, if_neg (by simpa using h)]
      have := ih (i + 1)
      simp only [List.length_cons]
      omega

theorem filter_range_mem_length (idxs : List Nat) (n : Nat)
    (hb : ∀ i ∈ idxs, i < n) (hnd : idxs.Nodup) :
    ((List.range n).filter (fun j => decide (j ∈ idxs))).length = idxs.length := by
  have hnd1 : ((List.range n).filter (fun j => decide (j ∈ idxs))).Nodup :=
    List.Nodup.filter _ (List.nodup_range n)
  have hmem : ∀ a, a ∈ (List.range n).filter (fun j => decide (j ∈ idxs)) ↔
      a ∈ idxs := by
    intro a
    rw [List.mem_filter, List.mem_range]
    constructor
    · intro h
      simpa using h.2
    · intro h
      exact ⟨hb a h, by simpa⟩
  exact ((List.perm_ext_iff_of_nodup hnd1 hnd).mpr hmem).length_eq

theorem removeRows_length (idxs : List Nat) (rs : List (List Val))
    (hb : ∀ i ∈ idxs, i < rs.length) (hnd : idxs.Nodup) :
    (removeRows idxs 0 rs).length = rs.length - idxs.length := by
  have h := removeRows_length_aux idxs rs 0
  rw [← List.range_eq_range'] at h
  rw [filter_range_mem_length idxs rs.length hb hnd] at h
  omega

theorem removeRows_all_lt (idxs : List Nat) :
    ∀ (rs : List (List Val)) (i : Nat),
      (∀ j ∈ idxs, j < i) → removeRows idxs i rs = rs := by
  intro rs
  induction rs with
  | nil => intro i _; rfl
  | cons r rest ih =>
    intro i hlt
    have hni : i ∉ idxs := fun h => Nat.lt_irrefl i (hlt i h)
    simp only [removeRows]
    rw [if_neg hni, ih (i + 1) (fun j hj => Nat.lt_succ_of_lt (hlt j hj))]

theorem removeRows_singleton (rs : List (List Val)) :
    ∀ (k i : Nat), removeRows [k + i] k rs = rs.eraseIdx i := by
  induction rs with
  | nil => intro k i; rfl
  | cons r rest ih =>
    intro k i
    cases i with
    | zero =>
      simp only [removeRows]
      rw [if_pos (by simp)]
      rw [removeRows_all_lt [k + 0] rest (k + 1) (by
        intro j hj
        rw [List.mem_singleton] at hj
        omega)]
      rfl
    | succ i =>
      simp only [removeRows]
      rw [if_neg (by
        rw [List.mem_singleton]
        omega)]
      rw [show k + (i + 1) = (k + 1) + i from by omega, ih (k + 1) i]
      rfl

/-- C6: deleting rows at in-range, pairwise-distinct zero-based positions
keeps exactly the rows at the other positions (in order, re-indexed from
zero by `reset_index`), lowering the row count by the number of positions;
a single position deletes precisely that row (`eraseIdx`); and any
out-of-range position makes the operation fail with the InvalidIndex
condition rather than succeed silently. -/
theorem delete_rows_spec (df : DF) (idxs : List Nat) :
    ((∀ i ∈ idxs, i < df.rows.length) → idxs.Nodup →
      delete_rows df idxs = Except.ok ⟨df.header, removeRows idxs 0 df.rows⟩
      ∧ (removeRows idxs 0 df.rows).length = df.rows.length - idxs.length)
    ∧ ((∃ i ∈ idxs, df.rows.length ≤ i) →
        delete_rows df idxs = Except.error RowErr.invalidIndex)
    ∧ (∀ i, i < df.rows.length →
        delete_rows df [i] = Except.ok ⟨df.header, df.rows.eraseIdx i⟩) := by
  refine ⟨fun hb hnd => ?_, fun hex => ?_, fun i hi => ?_⟩
  · have hall : idxs.all (fun i => decide (i < df.rows.length)) = true := by
      rw [List.all_eq_true]
      intro x hx
      exact decide_eq_true (hb x hx)
    refine ⟨?_, removeRows_length idxs df.rows hb hnd⟩
    unfold delete_rows
    rw [if_pos hall]
  · obtain ⟨i, hi, hge⟩ := hex
    have hall : ¬ idxs.all (fun i => decide (i < df.rows.length)) = true := by
      intro hall
      rw [List.all_eq_true] at hall
      have := hall i hi
      simp only [decide_eq_true_eq] at this
      omega
    unfold delete_rows
    rw [if_neg hall]
  · have hall : [i].all (fun j => decide (j < df.rows.length)) = true := by
      simp [hi]
    unfold delete_rows
    rw [if_pos hall]
    have h := removeRows_singleton df.rows 0 i
    rw [Nat.zero_add] at h
    rw [h]

/-- A three-row table for the C6 witness. -/
def dfC6 : DF := ⟨["A"], [[Val.num 1], [Val.num 2], [Val.num 3]]⟩

/-- Witness for C6: deleting rows 0 and 2 of a three-row table, deleting a
single middle row, and a failing out-of-range deletion. -/
theorem delete_rows_spec_witness :
    ((∀ i ∈ [0, 2], i < dfC6.rows.length) ∧ ([0, 2] : List Nat).Nodup
      ∧ (∃ i ∈ [5], dfC6.rows.length ≤ i) ∧ 1 < dfC6.rows.length)
    ∧ (delete_rows dfC6 [0, 2] =
        Except.ok ⟨dfC6.header, removeRows [0, 2] 0 dfC6.rows⟩
       ∧ (removeRows [0, 2] 0 dfC6.rows).length =
           dfC6.rows.length - ([0, 2] : List Nat).length)
    ∧ delete_rows dfC6 [5] = Except.error RowErr.invalidIndex
    ∧ delete_rows dfC6 [1] = Except.ok ⟨dfC6.header, dfC6.rows.eraseIdx 1⟩ :=
  ⟨⟨by decide, by decide, ⟨5, by decide, by decide⟩, by decide⟩,
   (delete_rows_spec dfC6 [0, 2]).1 (by decide) (by decide),
   (delete_rows_spec dfC6 [5]).2.1 ⟨5, by decide, by decide⟩,
   (delete_rows_spec dfC6 [1]).2.2 1 (by decide)⟩

/-! ### Row-addition, load, and create claims -/

/-- C8: adding `n ≥ 1` blank rows grows the row count by exactly `n`, keeps
every prior row (hence every prior cell) unchanged, and fills every cell of
every appended row with the absent marker — which is neither the number
zero nor the empty string. -/
theorem add_rows_spec (df : DF) (n : Nat) (hn : 1 ≤ n) :
    (add_rows df n).rows.length = df.rows.length + n
    ∧ (add_rows df n).header = df.header
    ∧ (add_rows df n).rows.take df.rows.length = df.rows
    ∧ (∀ r ∈ (add_rows df n).rows.drop df.rows.length,
        r = List.replicate df.header.length Val.na)
    ∧ (∀ r ∈ (add_rows df n).rows.drop df.rows.length, ∀ v ∈ r, v = Val.na)
    ∧ Val.na ≠ Val.num 0 ∧ Val.na ≠ Val.vstr "" := by
  unfold add_rows
  refine ⟨?_, rfl, ?_, ?_, ?_, by decide, by decide⟩
  · simp
  · exact List.take_left df.rows _
  · intro r hr
    rw [List.drop_left] at hr
    exact List.eq_of_mem_replicate hr
  · intro r hr v hv
    rw [List.drop_left] at hr
    rw [List.eq_of_mem_replicate hr] at hv
    exact List.eq_of_mem_replicate hv

/-- A one-row table for the C8 witness. -/
def dfC8 : DF := ⟨["A", "B"], [[Val.num 1, Val.vstr "x"]]⟩

/-- Witness for C8: appending two blank rows to a one-row table. -/
theorem add_rows_spec_witness :
    1 ≤ 2
    ∧ ((add_rows dfC8 2).rows.length = dfC8.rows.length + 2
       ∧ (add_rows dfC8 2).header = dfC8.header
       ∧ (add_rows dfC8 2).rows.take dfC8.rows.length = dfC8.rows
       ∧ (∀ r ∈ (add_rows dfC8 2).rows.drop dfC8.rows.length,
           r = List.replicate dfC8.header.length Val.na)
       ∧ (∀ r ∈ (add_rows dfC8 2).rows.drop dfC8.rows.length, ∀ v ∈ r, v = Val.na)
       ∧ Val.na ≠ Val.num 0 ∧ Val.na ≠ Val.vstr "") :=
  ⟨by decide, add_rows_spec dfC8 2 (by decide)⟩

/-- C7: `safe_read_excel` is a total function (no case raises): a missing or
zero-length file yields the empty table — zero columns, zero rows — with no
warning; any other read failure yields the empty table with a non-fatal
warning; a readable file yields its content. -/
theorem safe_read_excel_spec :
    safe_read_excel FileState.absent = ⟨emptyDF, false⟩
    ∧ safe_read_excel FileState.emptyFile = ⟨emptyDF, false⟩
    ∧ safe_read_excel FileState.corrupt = ⟨emptyDF, true⟩
    ∧ (∀ df, safe_read_excel (FileState.good df) = ⟨df, false⟩)
    ∧ emptyDF.header.length = 0 ∧ emptyDF.rows.length = 0 :=
  ⟨rfl, rfl, rfl, fun _ => rfl, rfl, rfl⟩

/-- C9: creating a file whose path already exists (in any state) is a no-op
that reports AlreadyExists without crashing; creating at a free path writes
the empty table; in particular a second create right after a first leaves
the file untouched and reports AlreadyExists. -/
theorem create_excel_spec (s : FileState) (h : s ≠ FileState.absent) :
    create_excel s = (s, CreateResult.alreadyExists)
    ∧ create_excel FileState.absent = (FileState.good emptyDF, CreateResult.created)
    ∧ create_excel (create_excel FileState.absent).1 =
        ((create_excel FileState.absent).1, CreateResult.alreadyExists) := by
  refine ⟨?_, rfl, rfl⟩
  cases s with
  | absent => exact absurd rfl h
  | emptyFile => rfl
  | corrupt => rfl
  | good df => rfl

/-- Witness for C9 at a concrete existing-file state. -/
theorem create_excel_spec_witness :
    FileState.emptyFile ≠ FileState.absent
    ∧ (create_excel FileState.emptyFile =
        (FileState.emptyFile, CreateResult.alreadyExists)
       ∧ create_excel FileState.absent =
           (FileState.good emptyDF, CreateResult.created)
       ∧ create_excel (create_excel FileState.absent).1 =
           ((create_excel FileState.absent).1, CreateResult.alreadyExists)) :=
  ⟨by decide, create_excel_spec FileState.emptyFile (by decide)⟩
